import Mathlib

/-!
# Verification of the grpc-consul-resolver repository

A shallow embedding of the Go sources of the `consul` package:

* `builder.go` — URL option parsing (`extractOpts`, `parseEndpoint`) and
  resolver construction (`Build`).
* the resolver file — the health filter (`filterPreferOnlyHealthy`), the
  address diff (`addressesEqual`), the blocking-query post-processing
  (`query`), the watch loop (`watcher`), and the non-blocking trigger
  (`ResolveNow`).

Go slices that can be `nil` are embedded as `Option (List _)`: `none` is the
nil slice, `some l` a non-nil slice with contents `l`.  Strings are Lean
`String`s; Go compares and lowercases them byte-wise, which coincides with
the character-wise operations used here on the ASCII data involved.
The effectful parts of the watch loop (calls to `UpdateState`,
`ReportError`, `time.Sleep`) are embedded as an explicit event trace, and
each pass through the loop body is a step function on the watcher's local
state (`lastReportedAddresses`, `opts.WaitIndex`).
-/

namespace GrpcConsulResolver

/-! ## String helpers (Go `strings` / `net` operations, kernel-computable) -/

/-- Go `strings.ToLower` restricted to ASCII (all option keys and values the
claims touch are ASCII). -/
def goToLower (s : String) : String :=
  String.mk (s.data.map Char.toLower)

/-- Character-list splitter behind `goSplit`: Go `strings.Split` semantics for
a one-character separator.  Splitting the empty list yields `[[]]`, i.e. one
empty field, exactly as `strings.Split("", ",") = [""]`. -/
def goSplitChars (sep : Char) : List Char → List (List Char)
  | [] => [[]]
  | c :: rest =>
    let r := goSplitChars sep rest
    if c = sep then [] :: r
    else
      match r with
      | [] => [[c]]
      | g :: gs => (c :: g) :: gs

/-- Go `strings.Split(s, sep)` for a one-character separator. -/
def goSplit (s : String) (sep : Char) : List String :=
  (goSplitChars sep s.data).map String.mk

/-- Go `strings.TrimPrefix(path, "/")`: drop one leading slash when present. -/
def goTrimLeadingSlash (s : String) : String :=
  match s.data with
  | [] => s
  | c :: rest => if c = '/' then String.mk rest else s

/-- Go `net.JoinHostPort`: hosts containing a colon (IPv6 literals) are
bracketed. -/
def goJoinHostPort (host port : String) : String :=
  if host.data.contains ':' then "[" ++ host ++ "]:" ++ port
  else host ++ ":" ++ port

/-- Byte-wise lexicographic comparison on character lists, Go's `<=` on
strings (ASCII data). -/
def goCharsLe : List Char → List Char → Bool
  | [], _ => true
  | _ :: _, [] => false
  | a :: as, b :: bs =>
    if a < b then true
    else if b < a then false
    else goCharsLe as bs

/-- Go `a <= b` on strings. -/
def goStrLe (a b : String) : Bool :=
  goCharsLe a.data b.data

/-- The ordering relation used to sort address snapshots
(`sort.Slice(addresses, … Addr < …)` sorts by `Addr` lexicographically). -/
def strLeR (a b : String) : Prop := goStrLe a b = true

instance : DecidableRel strLeR :=
  fun a b => inferInstanceAs (Decidable (goStrLe a b = true))

/-! ## Endpoint entry model and pure helpers of the resolver file -/

/-- Health filtering mode (`healthFilter` in the Go source). -/
inductive HealthFilter where
  | undefined
  | onlyHealthy
  | fallbackToUnhealthy
deriving DecidableEq

/-- One discovered service instance (`consul.ServiceEntry`), reduced to the
fields the resolver reads: `Service.Address`, `Node.Address`, `Service.Port`,
and the aggregated status of `Checks` (`Checks.AggregatedStatus()` is
computed by the external consul API package and is embedded as a field). -/
structure ServiceEntry where
  serviceAddress : String
  nodeAddress : String
  port : Int
  aggregatedStatus : String
deriving DecidableEq

/-- `api.HealthPassing`. -/
def healthPassing : String := "passing"

/-- `e.Checks.AggregatedStatus() == api.HealthPassing`. -/
def isPassing (e : ServiceEntry) : Bool :=
  e.aggregatedStatus == healthPassing

/-- `filterPreferOnlyHealthy`: collect the entries with passing health into
`healthy` (an append loop); return `healthy` when non-empty, otherwise the
unchanged input. -/
def filterPreferOnlyHealthy (entries : List ServiceEntry) : List ServiceEntry :=
  let healthy := entries.foldl
    (fun acc e => if isPassing e then acc ++ [e] else acc) []
  if healthy.length ≠ 0 then healthy else entries

/-- `addressesEqual`: the Go function first distinguishes nil from non-nil
slices, then compares lengths, then the `Addr` strings index-wise. -/
def addressesEqual (a b : Option (List String)) : Bool :=
  if a = none ∧ b ≠ none then false
  else if a ≠ none ∧ b = none then false
  else if (a.getD []).length ≠ (b.getD []).length then false
  else ((a.getD []).zip (b.getD [])).all fun p => p.1 == p.2

/-- The address string built from one entry inside `query`:
`e.Service.Address`, falling back to `e.Node.Address` when empty, joined
with `e.Service.Port`. -/
def entryAddr (e : ServiceEntry) : String :=
  let addr := if e.serviceAddress = "" then e.nodeAddress else e.serviceAddress
  goJoinHostPort addr (toString e.port)

/-- The address list `query` produces from the entries a successful backend
call returned: apply `filterPreferOnlyHealthy` in fallback mode (in
`onlyHealthy` mode the backend query itself was restricted to passing
entries), then map every entry to its address string.  The Go slice is
created with `make(…, 0, …)` and is therefore never nil. -/
def queryAddresses (hf : HealthFilter) (entries : List ServiceEntry) : List String :=
  let entries :=
    if hf = HealthFilter.fallbackToUnhealthy then filterPreferOnlyHealthy entries
    else entries
  entries.map entryAddr

/-- The `sort.Slice(addresses, …Addr < …)` step of the watcher.  Strings are
totally ordered by `strLeR`, so the sorted permutation is unique and any
correct sorting algorithm produces this list. -/
def sortAddrs (l : List String) : List String :=
  List.insertionSort strLeR l

/-! ## The watcher loop as a step function over an event trace -/

/-- `lastReportedAddresses` (nil until the first report) and `opts.WaitIndex`
— the only loop-local mutable state of `watcher`. -/
structure WatcherSt where
  lastReported : Option (List String)
  waitIndex : Nat
deriving DecidableEq

/-- The watcher's state when `watcher` starts: nothing reported yet, zero
wait index. -/
def initialWatcherSt : WatcherSt := ⟨none, 0⟩

/-- Outcome of one backend query, as observed by the loop body: either an
error (with the flag of `errors.Is(err, context.Canceled)`) or entries plus
the new `meta.LastIndex`; `fast` records whether the call returned control in
under the 50ms fast-response threshold (`time.Since(queryStartTime) < 50ms`). -/
inductive QueryResult where
  | failure (canceled : Bool)
  | success (entries : List ServiceEntry) (newIndex : Nat) (fast : Bool)
deriving DecidableEq

/-- Observable actions of one pass through the loop body: a call to
`cc.UpdateState` (carrying the possibly-nil address slice), a call to
`cc.ReportError`, or a `time.Sleep` of the given number of milliseconds. -/
inductive Event where
  | updateState (addrs : Option (List String))
  | reportError
  | sleep (ms : Nat)
deriving DecidableEq

/-- Control flow after one pass of the inner loop body: continue the inner
query loop, break out to the outer `select` (error path), or return from the
goroutine (cancellation). -/
inductive StepOutcome where
  | continueInner (st : WatcherSt)
  | breakInner (st : WatcherSt)
  | stop
deriving DecidableEq

/-- `time.Since(queryStartTime) < 50*time.Millisecond`. -/
def fastResponseThresholdMs : Nat := 50

/-- `time.Sleep(50 * time.Millisecond)` in the anti-busy-loop guard. -/
def antiBusyLoopSleepMs : Nat := 50

/-- One pass through the body of `watcher`'s inner `for` loop.  The Go
multi-assignment `addresses, opts.WaitIndex, err = c.query(opts)` writes 0
into `opts.WaitIndex` on the error path. -/
def watcherStep (hf : HealthFilter) (st : WatcherSt) (r : QueryResult) :
    List Event × StepOutcome :=
  match r with
  | QueryResult.failure canceled =>
    if canceled then ([], StepOutcome.stop)
    else ([Event.reportError], StepOutcome.breakInner { st with waitIndex := 0 })
  | QueryResult.success entries newIdx fast =>
    let lastWaitIndex := st.waitIndex
    if newIdx < lastWaitIndex then
      ([], StepOutcome.continueInner { st with waitIndex := 0 })
    else
      let addresses := sortAddrs (queryAddresses hf entries)
      if addressesEqual (some addresses) st.lastReported then
        if lastWaitIndex = newIdx ∧ fast then
          ([Event.sleep antiBusyLoopSleepMs],
            StepOutcome.continueInner { st with waitIndex := newIdx })
        else ([], StepOutcome.continueInner { st with waitIndex := newIdx })
      else
        ([Event.updateState (some addresses)],
          StepOutcome.continueInner ⟨some addresses, newIdx⟩)

/-- How a finite run of the inner loop ended. -/
inductive RunEnd where
  | exhausted
  | stoppedCancel
  | brokeError
deriving DecidableEq

/-- Run the inner loop on a finite script of query results, collecting the
event trace, the final state, and how the run ended. -/
def watcherInnerRun (hf : HealthFilter) :
    WatcherSt → List QueryResult → List Event × WatcherSt × RunEnd
  | st, [] => ([], st, RunEnd.exhausted)
  | st, r :: rest =>
    match watcherStep hf st r with
    | (evs, StepOutcome.stop) => (evs, st, RunEnd.stoppedCancel)
    | (evs, StepOutcome.breakInner st1) => (evs, st1, RunEnd.brokeError)
    | (evs, StepOutcome.continueInner st1) =>
      let rec1 := watcherInnerRun hf st1 rest
      (evs ++ rec1.1, rec1.2)

/-- The outer `select` the watcher blocks on after the inner loop breaks:
cancellation wins (`ctx.Done()`), otherwise a pending `resolveNow` signal is
consumed and the inner loop restarts, otherwise the select blocks (`none` —
there is no timer case, hence no automatic retry).  The result carries
(stopped?, pending signals afterwards). -/
def watcherWait (ctxDone : Bool) (pending : Nat) : Option (Bool × Nat) :=
  if ctxDone then some (true, pending)
  else if pending ≠ 0 then some (false, pending - 1)
  else none

/-- `ResolveNow`: a non-blocking send into the capacity-one `resolveNow`
channel (`select { case ch <- struct{}{}: default: }`), modelled on the
number of buffered signals. -/
def resolveNowSend (c : Nat) : Nat :=
  if c = 0 then 1 else c

/-- `n` consecutive `ResolveNow` calls. -/
def resolveNowSendN : Nat → Nat → Nat
  | 0, c => c
  | n + 1, c => resolveNowSendN n (resolveNowSend c)

/-! ## Builder: option parsing and construction (`builder.go`) -/

/-- The accumulator of `extractOpts`'s loop over the URL query values; the
fields start at their Go zero values (`tags` is a nil slice). -/
structure Opts where
  scheme : String
  tags : Option (List String)
  health : HealthFilter
  token : String
  dc : String
deriving DecidableEq

/-- The Go zero values of `extractOpts`'s named results. -/
def initialOpts : Opts :=
  { scheme := "", tags := none, health := HealthFilter.undefined,
    token := "", dc := "" }

/-- `extractOpts`: fold over the query parameters (`url.Values` entries); for
each key the last value wins (`values[len(values)-1]`); unknown keys,
non-`http(s)` schemes and unknown health values abort with an error. -/
def extractOpts : List (String × List String) → Opts → Except String Opts
  | [], acc => Except.ok acc
  | (key, values) :: rest, acc =>
    if values.length = 0 then extractOpts rest acc
    else
      let value := values.getLastD ""
      let k := goToLower key
      if k = "scheme" then
        let s := goToLower value
        if s ≠ "http" ∧ s ≠ "https" then
          Except.error ("unsupported scheme '" ++ value ++ "'")
        else extractOpts rest { acc with scheme := s }
      else if k = "tags" then
        extractOpts rest { acc with tags := some (goSplit value ',') }
      else if k = "dc" then
        extractOpts rest { acc with dc := value }
      else if k = "health" then
        let v := goToLower value
        if v = "healthy" then
          extractOpts rest { acc with health := HealthFilter.onlyHealthy }
        else if v = "fallbacktounhealthy" then
          extractOpts rest { acc with health := HealthFilter.fallbackToUnhealthy }
        else
          Except.error ("unsupported health parameter value: '" ++ value ++ "'")
      else if k = "token" then
        extractOpts rest { acc with token := value }
      else
        Except.error ("unsupported parameter: '" ++ key ++ "'")

/-- The result of `parseEndpoint`. -/
structure Endpoint where
  serviceName : String
  scheme : String
  tags : Option (List String)
  health : HealthFilter
  token : String
  dc : String
deriving DecidableEq

/-- `parseEndpoint`: strip the leading slash off `url.Path`; an empty service
name is an error; parse the options; an undefined health mode defaults to
`onlyHealthy`. -/
def parseEndpoint (path : String) (query : List (String × List String)) :
    Except String Endpoint :=
  let serviceName := goTrimLeadingSlash path
  if serviceName = "" then Except.error "path is missing in url"
  else
    match extractOpts query initialOpts with
    | Except.error e => Except.error e
    | Except.ok o =>
      let health :=
        if o.health = HealthFilter.undefined then HealthFilter.onlyHealthy
        else o.health
      Except.ok
        { serviceName := serviceName, scheme := o.scheme, tags := o.tags,
          health := health, token := o.token, dc := o.dc }

/-- A successfully built resolver: `Build` only reaches `r.start()` (which
launches the watcher goroutine) after `parseEndpoint` and
`newConsulResolver` succeeded, so a built resolver always has its watcher
started. -/
structure BuiltResolver where
  consulAddr : String
  endpoint : Endpoint
  started : Bool
deriving DecidableEq

/-- `Build`: on any `parseEndpoint` error return the error — no resolver
value exists and `r.start()` is never reached.  (`newConsulResolver`'s only
failure mode is consul client construction, an external concern embedded as
always succeeding.) -/
def buildResolver (host path : String) (query : List (String × List String)) :
    Except String BuiltResolver :=
  match parseEndpoint path query with
  | Except.error e => Except.error e
  | Except.ok ep =>
    Except.ok { consulAddr := host, endpoint := ep, started := true }

/-! ## Observers used only to state claims -/

/-- The effective value of the `tags` option in a query list: the last
entry with a non-empty value list whose lowered key is `"tags"` (later
entries of `url.Values` overwrite earlier ones in `extractOpts`'s fold). -/
def lastTagsValue : List (String × List String) → Option String
  | [] => none
  | (k, vs) :: rest =>
    match lastTagsValue rest with
    | some v => some v
    | none =>
      if vs.length ≠ 0 ∧ goToLower k = "tags" then some (vs.getLastD "")
      else none

/-- A query entry that `extractOpts` rejects: a non-`http(s)` scheme value,
an unknown health value, or an unsupported key (the effective value of an
entry is the last of its value list). -/
def badOptEntry (k : String) (vs : List String) : Prop :=
  vs ≠ [] ∧
    ((goToLower k = "scheme" ∧
        goToLower (vs.getLastD "") ≠ "http" ∧ goToLower (vs.getLastD "") ≠ "https")
      ∨ (goToLower k = "health" ∧
          goToLower (vs.getLastD "") ≠ "healthy" ∧
          goToLower (vs.getLastD "") ≠ "fallbacktounhealthy")
      ∨ (goToLower k ≠ "scheme" ∧ goToLower k ≠ "tags" ∧ goToLower k ≠ "dc" ∧
          goToLower k ≠ "health" ∧ goToLower k ≠ "token"))

/-- Modelled from the spec: the address-diff condition exactly as the claim
words it — same length and pairwise-equal address strings at corresponding
positions, looking only at list contents (nil and empty coincide). -/
def addressesEqualSpec (a b : Option (List String)) : Bool :=
  ((a.getD []).length == (b.getD []).length)
    && (((a.getD []).zip (b.getD [])).all fun p => p.1 == p.2)

/-! ## Order lemmas for the sort relation -/

theorem goCharsLe_total (as bs : List Char) :
    goCharsLe as bs = true ∨ goCharsLe bs as = true := by
  induction as generalizing bs with
  | nil => left; simp [goCharsLe]
  | cons a as ih =>
    cases bs with
    | nil => right; simp [goCharsLe]
    | cons b bs =>
      by_cases hab : a < b
      · left; simp [goCharsLe, hab]
      · by_cases hba : b < a
        · right; simp [goCharsLe, hba]
        · rcases ih bs with h | h
          · left; simp [goCharsLe, hab, hba, h]
          · right; simp [goCharsLe, hab, hba, h]

theorem goCharsLe_trans (as bs cs : List Char)
    (h1 : goCharsLe as bs = true) (h2 : goCharsLe bs cs = true) :
    goCharsLe as cs = true := by
  induction as generalizing bs cs with
  | nil => simp [goCharsLe]
  | cons a as ih =>
    cases bs with
    | nil => simp [goCharsLe] at h1
    | cons b bs =>
      cases cs with
      | nil => simp [goCharsLe] at h2
      | cons c cs =>
        simp only [goCharsLe] at h1 h2 ⊢
        by_cases hab : a < b
        · by_cases hbc : b < c
          · simp [lt_trans hab hbc]
          · by_cases hcb : c < b
            · simp [hbc, hcb] at h2
            · have hbceq : b = c := le_antisymm (le_of_not_lt hcb) (le_of_not_lt hbc)
              subst hbceq
              simp [hab]
        · by_cases hba : b < a
          · simp [hab, hba] at h1
          · have habeq : a = b := le_antisymm (le_of_not_lt hba) (le_of_not_lt hab)
            subst habeq
            simp [hab] at h1 ⊢
            by_cases hac : a < c
            · simp [hac]
            · by_cases hca : c < a
              · simp [hac, hca] at h2
              · simp [hac, hca] at h2 ⊢
                exact ⟨le_of_not_lt hca, ih bs cs h1 h2⟩

instance : IsTotal String strLeR :=
  ⟨fun a b => goCharsLe_total a.data b.data⟩

instance : IsTrans String strLeR :=
  ⟨fun a b c hab hbc => goCharsLe_trans a.data b.data c.data hab hbc⟩

/-- The watcher's sort step always produces a list sorted by the address
order. -/
theorem sortAddrs_sorted (l : List String) : List.Sorted strLeR (sortAddrs l) :=
  List.sorted_insertionSort strLeR l

/-! ## Helper lemmas -/

/-- Both modes produce no address from an empty entry list. -/
theorem queryAddresses_nil (hf : HealthFilter) : queryAddresses hf [] = [] := by
  cases hf <;> rfl

/-- The append loop over `entries` collecting passing entries is `filter`. -/
theorem foldl_append_filter {α : Type} (p : α → Bool) (l : List α) :
    ∀ init, l.foldl (fun acc e => if p e then acc ++ [e] else acc) init
      = init ++ l.filter p := by
  induction l with
  | nil => intro init; simp
  | cons e l ih =>
    intro init
    by_cases hp : p e
    · simp [List.foldl, hp, ih, List.filter_cons]
    · simp [List.foldl, hp, ih, List.filter_cons]

/-! ## Claims -/

/-- C1: for a watcher whose very first query succeeds with zero service
entries, the loop body invokes `UpdateState` exactly once, with an explicit
empty, non-nil address list (`some []`, not `none`), records that empty
snapshot, and continues querying — "no addresses known" is reported, it is
not silently skipped. -/
theorem first_query_empty_entries_reports_once
    (hf : HealthFilter) (idx : Nat) (fast : Bool) :
    watcherStep hf initialWatcherSt (QueryResult.success [] idx fast)
      = ([Event.updateState (some [])], StepOutcome.continueInner ⟨some [], idx⟩) := by
  have hq : sortAddrs (queryAddresses hf []) = [] := by
    rw [queryAddresses_nil]; rfl
  simp [watcherStep, initialWatcherSt, hq, addressesEqual]

/-- C2: in `FallbackToUnhealthy` mode the health filter returns exactly the
subset of entries with aggregated status passing when at least one such entry
exists, and returns the full input list unchanged when none does. -/
theorem filterPreferOnlyHealthy_spec (entries : List ServiceEntry) :
    ((∃ e ∈ entries, isPassing e = true) →
      filterPreferOnlyHealthy entries = entries.filter isPassing)
    ∧ ((∀ e ∈ entries, isPassing e = false) →
      filterPreferOnlyHealthy entries = entries) := by
  have hfold := foldl_append_filter isPassing entries []
  constructor
  · rintro ⟨e, he, hp⟩
    have hne : entries.filter isPassing ≠ [] := by
      intro h0
      have hmem : e ∈ entries.filter isPassing := List.mem_filter.mpr ⟨he, hp⟩
      rw [h0] at hmem
      exact absurd hmem (List.not_mem_nil e)
    unfold filterPreferOnlyHealthy
    rw [hfold, List.nil_append, if_pos (by simpa [List.length_eq_zero] using hne)]
  · intro hall
    have h0 : entries.filter isPassing = [] := by
      apply List.filter_eq_nil_iff.mpr
      intro e he
      simp [hall e he]
    unfold filterPreferOnlyHealthy
    rw [hfold, List.nil_append, h0]
    simp

theorem filterPreferOnlyHealthy_spec_witness :
    filterPreferOnlyHealthy
        [⟨"a", "n", 1, "passing"⟩, ⟨"b", "n", 2, "critical"⟩]
      = List.filter isPassing [⟨"a", "n", 1, "passing"⟩, ⟨"b", "n", 2, "critical"⟩]
    ∧ filterPreferOnlyHealthy [⟨"b", "n", 2, "critical"⟩]
      = [⟨"b", "n", 2, "critical"⟩] :=
  ⟨(filterPreferOnlyHealthy_spec _).1 ⟨⟨"a", "n", 1, "passing"⟩, by decide, by decide⟩,
   (filterPreferOnlyHealthy_spec _).2 (by decide)⟩

/-- C3: when a successful query returns a wait index strictly smaller than
the stored one (cursor regression), the loop body resets the cursor to zero
and immediately continues the inner query loop, emitting no report and no
sleep. -/
theorem cursor_regression_resets_and_requeries
    (hf : HealthFilter) (st : WatcherSt) (entries : List ServiceEntry)
    (newIdx : Nat) (fast : Bool) (h : newIdx < st.waitIndex) :
    watcherStep hf st (QueryResult.success entries newIdx fast)
      = ([], StepOutcome.continueInner { st with waitIndex := 0 }) := by
  simp [watcherStep, h]

theorem cursor_regression_resets_and_requeries_witness :
    watcherStep HealthFilter.onlyHealthy ⟨none, 50⟩ (QueryResult.success [] 10 false)
      = ([], StepOutcome.continueInner ⟨none, 0⟩) :=
  cursor_regression_resets_and_requeries HealthFilter.onlyHealthy ⟨none, 50⟩ [] 10 false
    (by decide)

/-- Index-wise `Addr` comparison of two lists of equal length is list
equality. -/
theorem zip_all_beq_iff (la lb : List String) (h : la.length = lb.length) :
    (((la.zip lb).all fun p => p.1 == p.2) = true) ↔ la = lb := by
  induction la generalizing lb with
  | nil =>
    cases lb with
    | nil => simp
    | cons b bs => simp at h
  | cons a as ih =>
    cases lb with
    | nil => simp at h
    | cons b bs =>
      have h1 : as.length = bs.length := by simpa using h
      simp only [List.zip_cons_cons, List.all_cons, Bool.and_eq_true, beq_iff_eq, ih bs h1]
      constructor
      · rintro ⟨rfl, rfl⟩; rfl
      · intro h2
        injection h2 with h2a h2b
        exact ⟨h2a, h2b⟩

/-- C4 counterexample: on a nil list versus an empty non-nil list the code's
`addressesEqual` returns `false`, although the two sides have equal length
and (vacuously) pairwise-equal address strings — the nil distinction is made
inside the function, not at the caller level. -/
theorem addressesEqual_nil_vs_empty_cex :
    addressesEqual none (some []) = false
    ∧ addressesEqualSpec none (some []) = true := by
  constructor
  · decide
  · decide

/-- C4 (amended): `addressesEqual` returns `true` iff the two slices agree on
nil-ness and have the same length with pairwise-equal address strings at
corresponding positions; the nil versus empty-non-nil distinction is
enforced inside the diff function itself (a nil slice never equals a
non-nil one). -/
theorem addressesEqual_iff (a b : Option (List String)) :
    addressesEqual a b = true ↔
      ((a = none ↔ b = none)
        ∧ (a.getD []).length = (b.getD []).length
        ∧ ∀ (i : Nat) (hia : i < (a.getD []).length) (hib : i < (b.getD []).length),
            (a.getD []).get ⟨i, hia⟩ = (b.getD []).get ⟨i, hib⟩) := by
  cases a with
  | none =>
    cases b with
    | none => simp [addressesEqual]
    | some lb => simp [addressesEqual]
  | some la =>
    cases b with
    | none => simp [addressesEqual]
    | some lb =>
      by_cases hlen : la.length = lb.length
      · rw [show addressesEqual (some la) (some lb)
            = ((la.zip lb).all fun p => p.1 == p.2) from by
          simp [addressesEqual, hlen]]
        rw [zip_all_beq_iff la lb hlen]
        constructor
        · rintro rfl
          exact ⟨Iff.rfl, rfl, fun _ _ _ => rfl⟩
        · rintro ⟨-, hl, hget⟩
          exact List.ext_get (by simpa using hl) (by simpa using hget)
      · constructor
        · intro hx
          rw [show addressesEqual (some la) (some lb) = false from by
            simp [addressesEqual, hlen]] at hx
          exact absurd hx (by simp)
        · rintro ⟨-, hl, -⟩
          exact absurd (by simpa using hl) hlen

theorem addressesEqual_iff_witness :
    addressesEqual (some ["a:1"]) (some ["a:1"]) = true :=
  (addressesEqual_iff (some ["a:1"]) (some ["a:1"])).mpr
    ⟨Iff.rfl, rfl, fun _ _ _ => rfl⟩

/-- Step invariant behind C5: every `UpdateState` event of one loop pass
carries a sorted list, and any state the pass hands on (continue or break)
keeps the last-reported snapshot nil-or-sorted. -/
theorem watcherStep_sorted_inv (hf : HealthFilter) (st : WatcherSt) (r : QueryResult)
    (h : ∀ l, st.lastReported = some l → List.Sorted strLeR l) :
    (∀ ev ∈ (watcherStep hf st r).1, ∀ l,
        ev = Event.updateState (some l) → List.Sorted strLeR l)
    ∧ (∀ st1, ((watcherStep hf st r).2 = StepOutcome.continueInner st1
          ∨ (watcherStep hf st r).2 = StepOutcome.breakInner st1) →
        ∀ l, st1.lastReported = some l → List.Sorted strLeR l) := by
  cases r with
  | failure canceled =>
    cases canceled with
    | true =>
      constructor
      · intro ev hev _ _
        simp [watcherStep] at hev
      · intro st1 hst1
        simp [watcherStep] at hst1
    | false =>
      constructor
      · intro ev hev l hl
        simp [watcherStep] at hev
        rw [hev] at hl
        exact absurd hl (by simp)
      · intro st1 hst1
        simp [watcherStep] at hst1
        intro l hl
        exact h l (by rw [← hst1] at hl; exact hl)
  | success entries newIdx fast =>
    by_cases hreg : newIdx < st.waitIndex
    · constructor
      · intro ev hev _ _
        simp [watcherStep, hreg] at hev
      · intro st1 hst1
        simp [watcherStep, hreg] at hst1
        intro l hl
        exact h l (by rw [← hst1] at hl; exact hl)
    · by_cases heq :
        addressesEqual (some (sortAddrs (queryAddresses hf entries))) st.lastReported = true
      · by_cases hslp : st.waitIndex = newIdx ∧ fast = true
        · constructor
          · intro ev hev l hl
            simp [watcherStep, hreg, heq, hslp] at hev
            rw [hev] at hl
            exact absurd hl (by simp)
          · intro st1 hst1
            simp [watcherStep, hreg, heq, hslp] at hst1
            intro l hl
            exact h l (by rw [← hst1] at hl; exact hl)
        · constructor
          · intro ev hev _ _
            simp [watcherStep, hreg, heq, hslp] at hev
          · intro st1 hst1
            simp [watcherStep, hreg, heq, hslp] at hst1
            intro l hl
            exact h l (by rw [← hst1] at hl; exact hl)
      · constructor
        · intro ev hev l hl
          simp [watcherStep, hreg, heq] at hev
          rw [hev] at hl
          injection hl with hl1
          injection hl1 with hl2
          rw [← hl2]
          exact sortAddrs_sorted _
        · intro st1 hst1
          simp [watcherStep, hreg, heq] at hst1
          intro l hl
          rw [← hst1] at hl
          simp at hl
          rw [← hl]
          exact sortAddrs_sorted _

/-- C5 (amended): along any run of the inner loop from a state whose
last-reported snapshot is nil or sorted, every address snapshot passed to
`UpdateState` is sorted lexicographically by address, and the last-reported
snapshot stays nil-or-sorted (so every `addressesEqual` comparison is also
between sorted snapshots).  Deduplication, however, is NOT performed — see
the counterexample. -/
theorem watcher_snapshots_sorted (hf : HealthFilter) (st : WatcherSt)
    (rs : List QueryResult)
    (h : ∀ l, st.lastReported = some l → List.Sorted strLeR l) :
    (∀ ev ∈ (watcherInnerRun hf st rs).1, ∀ l,
        ev = Event.updateState (some l) → List.Sorted strLeR l)
    ∧ (∀ l, (watcherInnerRun hf st rs).2.1.lastReported = some l →
        List.Sorted strLeR l) := by
  induction rs generalizing st with
  | nil =>
    constructor
    · intro ev hev _ _
      simp [watcherInnerRun] at hev
    · simpa [watcherInnerRun] using h
  | cons r rest ih =>
    obtain ⟨hev, hst⟩ := watcherStep_sorted_inv hf st r h
    rcases hq : watcherStep hf st r with ⟨evs, out⟩
    rw [hq] at hev hst
    cases out with
    | stop =>
      constructor
      · intro ev hmem l hl
        rw [watcherInnerRun, hq] at hmem
        exact hev ev hmem l hl
      · intro l hl
        rw [watcherInnerRun, hq] at hl
        exact h l hl
    | breakInner st1 =>
      constructor
      · intro ev hmem l hl
        rw [watcherInnerRun, hq] at hmem
        exact hev ev hmem l hl
      · intro l hl
        rw [watcherInnerRun, hq] at hl
        exact hst st1 (Or.inr rfl) l hl
    | continueInner st1 =>
      obtain ⟨ih1, ih2⟩ := ih st1 (hst st1 (Or.inl rfl))
      constructor
      · intro ev hmem l hl
        rw [watcherInnerRun, hq] at hmem
        simp only [List.mem_append] at hmem
        rcases hmem with hmem | hmem
        · exact hev ev hmem l hl
        · exact ih1 ev hmem l hl
      · intro l hl
        rw [watcherInnerRun, hq] at hl
        exact ih2 l hl

theorem watcher_snapshots_sorted_witness :
    (∀ ev ∈ (watcherInnerRun HealthFilter.onlyHealthy initialWatcherSt
        [QueryResult.success [⟨"b", "n", 2, "passing"⟩, ⟨"a", "n", 1, "passing"⟩] 1 false]).1,
      ∀ l, ev = Event.updateState (some l) → List.Sorted strLeR l)
    ∧ (∀ l, (watcherInnerRun HealthFilter.onlyHealthy initialWatcherSt
        [QueryResult.success [⟨"b", "n", 2, "passing"⟩, ⟨"a", "n", 1, "passing"⟩] 1 false]).2.1.lastReported
          = some l → List.Sorted strLeR l) :=
  watcher_snapshots_sorted HealthFilter.onlyHealthy initialWatcherSt
    [QueryResult.success [⟨"b", "n", 2, "passing"⟩, ⟨"a", "n", 1, "passing"⟩] 1 false]
    (fun _ hl => nomatch hl)

/-- C5 counterexample: two distinct backend entries carrying the same
address yield a reported snapshot `["a:1", "a:1"]` that contains a duplicate
— the watcher sorts but does not deduplicate by address identity. -/
theorem watcher_reports_duplicate_cex :
    (watcherStep HealthFilter.onlyHealthy initialWatcherSt
        (QueryResult.success
          [⟨"a", "n", 1, "passing"⟩, ⟨"a", "n", 1, "passing"⟩] 1 false)).1
      = [Event.updateState (some ["a:1", "a:1"])]
    ∧ ¬ List.Nodup ["a:1", "a:1"] := by
  constructor
  · decide
  · decide

/-- C6: whenever a query returns addresses equal to the last-reported
snapshot with an unchanged cursor and control came back under the 50ms
fast-response threshold, each pass sleeps for the fixed minimum interval (50ms,
no shorter than the threshold) before the next query — `n` identical fast
responses in a row produce exactly `n` sleeps and never a tight busy-loop. -/
theorem watcher_no_busy_loop (hf : HealthFilter) (st : WatcherSt)
    (entries : List ServiceEntry) (n : Nat)
    (heq : addressesEqual (some (sortAddrs (queryAddresses hf entries)))
      st.lastReported = true) :
    watcherInnerRun hf st
        (List.replicate n (QueryResult.success entries st.waitIndex true))
      = (List.replicate n (Event.sleep antiBusyLoopSleepMs), st, RunEnd.exhausted)
    ∧ fastResponseThresholdMs ≤ antiBusyLoopSleepMs := by
  refine ⟨?_, le_refl _⟩
  have hstep : watcherStep hf st (QueryResult.success entries st.waitIndex true)
      = ([Event.sleep antiBusyLoopSleepMs], StepOutcome.continueInner st) := by
    simp [watcherStep, heq]
  induction n with
  | zero => simp [watcherInnerRun]
  | succ n ih =>
    simp [watcherInnerRun, hstep, ih, List.replicate_succ]

theorem watcher_no_busy_loop_witness :
    watcherInnerRun HealthFilter.onlyHealthy ⟨some [], 7⟩
        (List.replicate 3 (QueryResult.success [] 7 true))
      = (List.replicate 3 (Event.sleep antiBusyLoopSleepMs), ⟨some [], 7⟩,
          RunEnd.exhausted)
    ∧ fastResponseThresholdMs ≤ antiBusyLoopSleepMs :=
  watcher_no_busy_loop HealthFilter.onlyHealthy ⟨some [], 7⟩ [] 3 (by decide)

/-- C7: a cancelled query makes the watcher return at once with no consumer
hook invoked; any other query error invokes `ReportError` exactly once and
breaks the inner loop (zeroing the wait index the multi-assignment wrote);
the outer wait then stops on cancellation, reruns once per pending manual
trigger, and otherwise blocks — it has no timer case, so the watcher never
retries on its own. -/
theorem watcher_error_handling (hf : HealthFilter) (st : WatcherSt) :
    watcherStep hf st (QueryResult.failure true) = ([], StepOutcome.stop)
    ∧ watcherStep hf st (QueryResult.failure false)
        = ([Event.reportError], StepOutcome.breakInner { st with waitIndex := 0 })
    ∧ watcherWait true 0 = some (true, 0)
    ∧ watcherWait false 1 = some (false, 0)
    ∧ watcherWait false 0 = none :=
  ⟨rfl, rfl, by decide, by decide, by decide⟩

/-- C8: `ResolveNow` is a non-blocking send into a capacity-one channel: the
pending state never exceeds one signal, sending onto a pending signal is a
no-op, any `n ≥ 1` calls leave exactly one pending signal, and consuming it
yields exactly one extra query cycle (after which nothing is pending, so no
further cycle happens without a new call). -/
theorem resolveNow_coalescing (n c : Nat) (hn : 1 ≤ n) (hc : c ≤ 1) :
    resolveNowSend c ≤ 1
    ∧ resolveNowSend (resolveNowSend c) = resolveNowSend c
    ∧ resolveNowSend 1 = 1
    ∧ resolveNowSendN n 0 = 1
    ∧ watcherWait false (resolveNowSendN n 0) = some (false, 0)
    ∧ watcherWait false 0 = none := by
  have hsend1 : ∀ m, resolveNowSendN m 1 = 1 := by
    intro m
    induction m with
    | zero => rfl
    | succ m ih => simpa [resolveNowSendN, resolveNowSend] using ih
  have hN : resolveNowSendN n 0 = 1 := by
    cases n with
    | zero => exact absurd hn (by decide)
    | succ m => simp [resolveNowSendN, resolveNowSend, hsend1]
  refine ⟨?_, ?_, rfl, hN, by rw [hN]; decide, rfl⟩
  · by_cases h : c = 0
    · simp [resolveNowSend, h]
    · simpa [resolveNowSend, h] using hc
  · by_cases h : c = 0 <;> simp [resolveNowSend, h]

theorem resolveNow_coalescing_witness :
    resolveNowSend 1 ≤ 1
    ∧ resolveNowSend (resolveNowSend 1) = resolveNowSend 1
    ∧ resolveNowSend 1 = 1
    ∧ resolveNowSendN 3 0 = 1
    ∧ watcherWait false (resolveNowSendN 3 0) = some (false, 0)
    ∧ watcherWait false 0 = none :=
  resolveNow_coalescing 3 1 (by decide) (by decide)

/-- A head entry that is not an effective tags option leaves the effective
tags value to the tail. -/
theorem lastTagsValue_cons_skip (k : String) (vs : List String)
    (rest : List (String × List String))
    (h : vs.length = 0 ∨ ¬ goToLower k = "tags") :
    lastTagsValue ((k, vs) :: rest) = lastTagsValue rest := by
  rcases hrest : lastTagsValue rest with - | v <;>
    rcases h with h | h <;>
    simp [lastTagsValue, hrest, h]

/-- A head tags entry is the effective tags value when the tail has none. -/
theorem lastTagsValue_cons_tags (k : String) (vs : List String)
    (rest : List (String × List String))
    (hlen : ¬ vs.length = 0) (hk : goToLower k = "tags")
    (hrest : lastTagsValue rest = none) :
    lastTagsValue ((k, vs) :: rest) = some (vs.getLastD "") := by
  simp [lastTagsValue, hrest, hlen, hk]

/-- Any query list containing a rejected entry makes `extractOpts` fail,
whatever the accumulated options are. -/
theorem extractOpts_error_of_bad (query : List (String × List String)) :
    ∀ acc : Opts, (∃ p ∈ query, badOptEntry p.1 p.2) →
      ∃ e, extractOpts query acc = Except.error e := by
  induction query with
  | nil =>
    rintro acc ⟨p, hp, -⟩
    exact absurd hp (List.not_mem_nil p)
  | cons kv rest ih =>
    rintro acc ⟨p, hp, hbad⟩
    rcases kv with ⟨k, vs⟩
    rcases List.mem_cons.mp hp with hphead | hptail
    · -- the offending entry is the head
      subst hphead
      obtain ⟨hne, hcase⟩ := hbad
      have hlen : ¬ vs.length = 0 := by
        simpa [List.length_eq_zero] using hne
      simp only [extractOpts, if_neg hlen]
      rcases hcase with ⟨hk, h1, h2⟩ | ⟨hk, h1, h2⟩ | ⟨h1, h2, h3, h4, h5⟩
      · rw [if_pos hk, if_pos ⟨h1, h2⟩]
        exact ⟨_, rfl⟩
      · rw [if_neg (by rw [hk]; decide), if_neg (by rw [hk]; decide),
          if_neg (by rw [hk]; decide), if_pos hk, if_neg h1, if_neg h2]
        exact ⟨_, rfl⟩
      · rw [if_neg h1, if_neg h2, if_neg h3, if_neg h4, if_neg h5]
        exact ⟨_, rfl⟩
    · -- the offending entry is further down; the head either errors out
      -- (fine) or the fold recurses and the induction hypothesis applies
      simp only [extractOpts]
      split
      · exact ih acc ⟨p, hptail, hbad⟩
      · split
        · split
          · exact ⟨_, rfl⟩
          · exact ih _ ⟨p, hptail, hbad⟩
        · split
          · exact ih _ ⟨p, hptail, hbad⟩
          · split
            · exact ih _ ⟨p, hptail, hbad⟩
            · split
              · split
                · exact ih _ ⟨p, hptail, hbad⟩
                · split
                  · exact ih _ ⟨p, hptail, hbad⟩
                  · exact ⟨_, rfl⟩
              · split
                · exact ih _ ⟨p, hptail, hbad⟩
                · exact ⟨_, rfl⟩

/-- C9: a target URL with an empty service name, an unsupported scheme
value, an invalid health mode value, or an unsupported option key is
rejected synchronously: `parseEndpoint` returns an error and `Build` returns
that error without constructing a resolver or starting a watcher — such
configuration errors cannot arise mid-run because option parsing only
happens here. -/
theorem build_rejects_invalid_config (host path : String)
    (query : List (String × List String))
    (h : goTrimLeadingSlash path = "" ∨ ∃ p ∈ query, badOptEntry p.1 p.2) :
    (∃ e, parseEndpoint path query = Except.error e)
    ∧ (∃ e, buildResolver host path query = Except.error e) := by
  have hpe : ∃ e, parseEndpoint path query = Except.error e := by
    rcases h with hname | hbad
    · refine ⟨"path is missing in url", ?_⟩
      simp [parseEndpoint, hname]
    · by_cases hname : goTrimLeadingSlash path = ""
      · refine ⟨"path is missing in url", ?_⟩
        simp [parseEndpoint, hname]
      · rcases extractOpts_error_of_bad query initialOpts hbad with ⟨e, he⟩
        refine ⟨e, ?_⟩
        simp [parseEndpoint, hname, he]
  rcases hpe with ⟨e, he⟩
  exact ⟨⟨e, he⟩, ⟨e, by simp [buildResolver, he]⟩⟩

theorem build_rejects_invalid_config_witness :
    (∃ e, parseEndpoint "/svc" [("health", ["bogus"])] = Except.error e)
    ∧ (∃ e, buildResolver "consul.example:8500" "/svc" [("health", ["bogus"])]
        = Except.error e) :=
  build_rejects_invalid_config "consul.example:8500" "/svc"
    [("health", ["bogus"])]
    (Or.inr ⟨("health", ["bogus"]), by decide, by
      unfold badOptEntry
      decide⟩)

/-- When `extractOpts` succeeds, the resulting tag list is the comma-split of
the effective (last) `tags` value, or the accumulator tags when the option
never occurs. -/
theorem extractOpts_tags_eq (query : List (String × List String)) :
    ∀ (acc o : Opts), extractOpts query acc = Except.ok o →
      o.tags = (match lastTagsValue query with
        | some v => some (goSplit v ',')
        | none => acc.tags) := by
  induction query with
  | nil =>
    intro acc o h
    simp only [extractOpts] at h
    injection h with h
    rw [← h]
    simp [lastTagsValue]
  | cons kv rest ih =>
    intro acc o h
    rcases kv with ⟨k, vs⟩
    by_cases hemp : vs.length = 0
    · simp only [extractOpts, if_pos hemp] at h
      rw [lastTagsValue_cons_skip k vs rest (Or.inl hemp)]
      exact ih acc o h
    · simp only [extractOpts, if_neg hemp] at h
      by_cases hk2 : goToLower k = "tags"
      · -- the head is the effective tags entry unless the tail overrides it
        have hk1 : ¬ goToLower k = "scheme" := by
          rw [hk2]; decide
        rw [if_neg hk1, if_pos hk2] at h
        have hr := ih _ o h
        rcases hrest : lastTagsValue rest with - | v
        · rw [lastTagsValue_cons_tags k vs rest hemp hk2 hrest]
          rw [hrest] at hr
          exact hr
        · have hhead : lastTagsValue ((k, vs) :: rest) = some v := by
            simp [lastTagsValue, hrest]
          rw [hhead]
          rw [hrest] at hr
          exact hr
      · rw [lastTagsValue_cons_skip k vs rest (Or.inr hk2)]
        by_cases hk1 : goToLower k = "scheme"
        · rw [if_pos hk1] at h
          split at h
          · exact absurd h (by simp)
          · have hr := ih _ o h
            exact hr
        · rw [if_neg hk1, if_neg hk2] at h
          by_cases hk3 : goToLower k = "dc"
          · rw [if_pos hk3] at h
            have hr := ih _ o h
            exact hr
          · rw [if_neg hk3] at h
            by_cases hk4 : goToLower k = "health"
            · rw [if_pos hk4] at h
              split at h
              · have hr := ih _ o h
                exact hr
              · split at h
                · have hr := ih _ o h
                  exact hr
                · exact absurd h (by simp)
            · rw [if_neg hk4] at h
              by_cases hk5 : goToLower k = "token"
              · rw [if_pos hk5] at h
                have hr := ih _ o h
                exact hr
              · rw [if_neg hk5] at h
                exact absurd h (by simp)

/-- C10: when the effective `tags` option value in the URL query is the
empty string, parsing succeeds with a one-element tag list containing the
empty string — because splitting `""` on a comma yields `[""]` — and in
particular not with an empty tag list, so `tags=` differs from omitting the
option. -/
theorem empty_tags_value_yields_singleton (query : List (String × List String))
    (o : Opts) (hok : extractOpts query initialOpts = Except.ok o)
    (hempty : lastTagsValue query = some "") :
    o.tags = some [""] ∧ o.tags ≠ some [] ∧ goSplit "" ',' = [""] := by
  have htags := extractOpts_tags_eq query initialOpts o hok
  rw [hempty] at htags
  have h1 : o.tags = some [""] := by simpa using htags
  refine ⟨h1, ?_, rfl⟩
  rw [h1]
  simp

theorem empty_tags_value_yields_singleton_witness :
    (⟨"", some [""], HealthFilter.undefined, "", ""⟩ : Opts).tags = some [""]
    ∧ (⟨"", some [""], HealthFilter.undefined, "", ""⟩ : Opts).tags ≠ some []
    ∧ goSplit "" ',' = [""] :=
  empty_tags_value_yields_singleton [("tags", [""])]
    ⟨"", some [""], HealthFilter.undefined, "", ""⟩
    rfl (by decide)

end GrpcConsulResolver
